import Mathlib

/-!
Verification development for the AI-editor repository.

The Python sources are embedded shallowly:

* pure helpers of `src/code_analyzer.py` and `src/github_client.py` become
  executable Lean functions over `String` / `List Char`;
* the external collaborators (the OpenAI-backed content generator of
  `src/ai_editor.py`, the CPython standard-library parsers `ast.parse`,
  `json.loads` and `yaml.safe_load`, the `hashlib` digest and
  `shutil.rmtree`) are modelled as explicit function parameters, since their
  behaviour is outside this repository;
* the filesystem of the cloned working copy is an association list from file
  paths to contents, and the stateful methods of
  `src/repository_manager.py` become explicit state-passing functions.

Python string primitives used by the sources (`str.rstrip`, `str.strip`,
`str.split`, `in`, `str.endswith`, `pathlib.Path.suffix`,
`urllib.parse.urlparse(...).path`) are re-implemented on `List Char`,
following the documented CPython semantics.
-/

/-- Python `needle in haystack` substring test on character lists.
`"" in s` is `True` in Python, hence the `isEmpty` base case. -/
def containsSub (n : List Char) : List Char → Bool
  | [] => n.isEmpty
  | c :: t => n.isPrefixOf (c :: t) || containsSub n t

/-- Python `s in t` on strings. -/
def strContains (t n : String) : Bool := containsSub n.data t.data

/-- Python `str.split(sep)` for a one-character separator: keeps empty
pieces, and splitting the empty string yields `[""]`. -/
def charSplit (sep : Char) : List Char → List (List Char)
  | [] => [[]]
  | c :: t =>
    match charSplit sep t with
    | [] => [[c]]
    | h :: r => if c = sep then [] :: h :: r else (c :: h) :: r

/-- Python `str.rstrip(chars)`: drop the longest trailing run of characters
from `cs`. -/
def pyRstrip (cs : List Char) (l : List Char) : List Char :=
  (l.reverse.dropWhile (fun c => cs.contains c)).reverse

/-- Python `str.lstrip(chars)`. -/
def pyLstrip (cs : List Char) (l : List Char) : List Char :=
  l.dropWhile (fun c => cs.contains c)

/-- Python `str.strip(chars)`. -/
def pyStrip (cs : List Char) (l : List Char) : List Char :=
  pyRstrip cs (pyLstrip cs l)

/-- Python `str.strip()` (whitespace on both ends). -/
def pyStripWs (l : List Char) : List Char :=
  (l.dropWhile Char.isWhitespace).reverse.dropWhile Char.isWhitespace |>.reverse

/-- Python `str.split()` with no argument: split on whitespace runs and
discard empty tokens. -/
def pySplitWs (s : String) : List String :=
  ((s.data.splitOnP Char.isWhitespace).map String.mk).filter (fun t => decide (t ≠ ""))

/-- Final path component, as used by `pathlib.Path(filename).suffix`
(the suffix is computed on the last `/`-separated component). -/
def lastComponent (l : List Char) : List Char :=
  (charSplit '/' l).getLastD []

/-- `pathlib.Path(name).suffix` on one path component: the substring from
the last dot, except that a leading dot (hidden files) or a trailing dot
yields the empty suffix. -/
def pySuffix (name : List Char) : List Char :=
  let rev := name.reverse
  let k := rev.takeWhile (fun c => decide (c ≠ '.'))
  -- a dot exists, it is not the first character, and not the last one
  if k.length < rev.length ∧ k.length + 1 < name.length ∧ 0 < k.length
  then '.' :: k.reverse else []

/-- `Path(filename).suffix.lower()` on a whole (possibly slashed) path. -/
def pathSuffixLower (filename : String) : String :=
  String.mk ((pySuffix (lastComponent filename.data)).map Char.toLower)

/-- The extension table `CodeAnalyzer.LANGUAGE_EXTENSIONS`. -/
def LANGUAGE_EXTENSIONS : List (String × String) :=
  [(".py", "python"), (".js", "javascript"), (".jsx", "javascript"),
   (".ts", "typescript"), (".tsx", "typescript"), (".java", "java"),
   (".cpp", "cpp"), (".c", "c"), (".cs", "csharp"), (".go", "go"),
   (".rs", "rust"), (".rb", "ruby"), (".php", "php"), (".swift", "swift"),
   (".kt", "kotlin"), (".scala", "scala"), (".r", "r"), (".m", "matlab"),
   (".sql", "sql"), (".sh", "shell"), (".bash", "shell"),
   (".ps1", "powershell"), (".html", "html"), (".css", "css"),
   (".scss", "scss"), (".sass", "sass"), (".less", "less"),
   (".json", "json"), (".yaml", "yaml"), (".yml", "yaml"), (".xml", "xml"),
   (".md", "markdown"), (".txt", "text"), (".dockerfile", "dockerfile"),
   (".gitignore", "gitignore"), (".env", "env")]

/-- The shebang table of `CodeAnalyzer.detect_language`, in insertion
order; the mapping key itself is returned on a hit. -/
def shebang_mapping : List (String × List String) :=
  [("python", ["python", "python2", "python3"]),
   ("bash", ["bash", "sh"]),
   ("node", ["node"]),
   ("ruby", ["ruby"]),
   ("perl", ["perl"]),
   ("php", ["php"])]

/-- Shebang inspection step of `CodeAnalyzer.detect_language`: Python's
`if content:` makes `None` and `""` both skip this step. -/
def shebangLang (content : Option String) : Option String :=
  match content with
  | none => none
  | some c =>
    if c = "" then none
    else
      let first_line := String.mk (pyStripWs (((charSplit '\n' c.data).headD []) ))
      if "#!".isPrefixOf first_line then
        (shebang_mapping.find? (fun li =>
          li.2.any (fun interp => strContains first_line interp))).map (fun li => li.1)
      else none

/-- `CodeAnalyzer.detect_language(filename, content)`: extension table,
then shebang, then filename-pattern heuristics, else `"unknown"`. -/
def detect_language (filename : String) (content : Option String) : String :=
  let ext := pathSuffixLower filename
  match LANGUAGE_EXTENSIONS.lookup ext with
  | some lang => lang
  | none =>
    match shebangLang content with
    | some lang => lang
    | none =>
      let filename_lower := filename.toLower
      if strContains filename_lower "dockerfile" then "dockerfile"
      else if strContains filename_lower "makefile" then "makefile"
      else if filename_lower = ".gitignore" then "gitignore"
      else if filename_lower = ".env" then "env"
      else "unknown"

/-- Outcome of CPython `ast.parse`: success, a `SyntaxError` carrying line,
offset and message, or another exception rendered by `str(e)`. -/
inductive PyParseOutcome where
  | ok : PyParseOutcome
  | syntaxError (lineno : Nat) (offset : Nat) (msg : String) : PyParseOutcome
  | otherError (msg : String) : PyParseOutcome
deriving DecidableEq

/-- The standard-library checkers `CodeAnalyzer.validate_*_syntax` call
out to.  `ast.parse`, `json.loads` and `yaml.safe_load` live outside this
repository, so they are parameters of the embedding; `yamlAvailable`
models whether `import yaml` succeeds. -/
structure LibParsers where
  pyParse : String → PyParseOutcome
  jsonParse : String → Option (Nat × String)  -- `JSONDecodeError` (lineno, msg), `none` on success
  yamlAvailable : Bool
  yamlParse : String → Option String          -- `YAMLError` rendered by `str(e)`, `none` on success

/-- `CodeAnalyzer.validate_python_syntax`. -/
def validatePythonSyntax (P : LibParsers) (content : String) : Bool × Option String :=
  match P.pyParse content with
  | .ok => (true, none)
  | .syntaxError lineno _ msg =>
      (false, some ("Syntax error at line " ++ toString lineno ++ ": " ++ msg))
  | .otherError msg => (false, some msg)

/-- `CodeAnalyzer.validate_json_syntax`. -/
def validateJsonSyntax (P : LibParsers) (content : String) : Bool × Option String :=
  match P.jsonParse content with
  | none => (true, none)
  | some (lineno, msg) =>
      (false, some ("JSON error at line " ++ toString lineno ++ ": " ++ msg))

/-- `CodeAnalyzer.validate_yaml_syntax`; when pyyaml is not importable the
function reports valid. -/
def validateYamlSyntax (P : LibParsers) (content : String) : Bool × Option String :=
  if P.yamlAvailable then
    match P.yamlParse content with
    | none => (true, none)
    | some msg => (false, some msg)
  else (true, none)

/-- `CodeAnalyzer.validate_syntax(content, language)`: dispatch on the
language tag; languages without a checker report valid with no error. -/
def validateSyntax (P : LibParsers) (content : String) (language : String) :
    Bool × Option String :=
  if language = "python" then validatePythonSyntax P content
  else if language = "json" then validateJsonSyntax P content
  else if language = "yaml" then validateYamlSyntax P content
  else (true, none)

/-- Result dictionary of `CodeAnalyzer.compare_files`.  The
`added_lines`/`removed_lines` keys are absent from the identical-contents
branch, hence the `Option`; Python's set-iteration order for them is
unspecified, the embedding lists the distinct lines in first-occurrence
order.  `similarity` is a `difflib` ratio, kept as a rational. -/
structure CompareResult where
  changed : Bool
  additions : Nat
  deletions : Nat
  similarity : ℚ
  added_lines : Option (List String)
  removed_lines : Option (List String)
deriving DecidableEq

/-- `CodeAnalyzer.compare_files(old_content, new_content)`.  The
`difflib.SequenceMatcher(None, old.split(), new.split()).ratio()` call is
modelled by the parameter `simFn` applied to the whitespace-token lists. -/
def compare_files (simFn : List String → List String → ℚ)
    (old_content new_content : String) : CompareResult :=
  if old_content = new_content then
    { changed := false, additions := 0, deletions := 0, similarity := 1,
      added_lines := none, removed_lines := none }
  else
    let old_lines := (charSplit '\n' old_content.data).map String.mk
    let new_lines := (charSplit '\n' new_content.data).map String.mk
    let added := (new_lines.filter (fun l => decide (l ∉ old_lines))).dedup
    let removed := (old_lines.filter (fun l => decide (l ∉ new_lines))).dedup
    { changed := true,
      additions := added.length,
      deletions := removed.length,
      similarity := simFn (pySplitWs old_content) (pySplitWs new_content),
      added_lines := some (added.take 10),
      removed_lines := some (removed.take 10) }

/-- The character set of `url.rstrip('.git')`: a trailing run drawn from
`{'.', 'g', 'i', 't'}` is removed (character-set semantics of
`str.rstrip`, not suffix removal). -/
def gitChars : List Char := ['.', 'g', 'i', 't']

/-- Remainder of the input after the first occurrence of `"://"`, if any;
used to model `urllib.parse.urlparse`. -/
def afterSchemeSep : List Char → Option (List Char)
  | ':' :: '/' :: '/' :: rest => some rest
  | _ :: t => afterSchemeSep t
  | [] => none

/-- `urllib.parse.urlparse(url).path`, modelled for URLs of the shapes the
sources feed it: with a `scheme://netloc/path` prefix the path is the
remainder from the first slash after the authority, otherwise the whole
input is the path.  Query and fragment splitting is not modelled; the
theorems below only apply it to inputs without `?` or `#`. -/
def pyUrlparsePath (url : List Char) : List Char :=
  match afterSchemeSep url with
  | some rest => rest.dropWhile (fun c => decide (c ≠ '/'))
  | none => url

/-- `GitHubClient.parse_repo_url(url)`: strip trailing slashes, then
trailing `.git`-set characters, parse out the URL path, strip slashes,
split on `/`, and fail with `ValueError` (modelled as `.error`) when
fewer than two components remain. -/
def parse_repo_url (url : String) : Except String (String × String) :=
  match charSplit '/'
      (pyStrip ['/'] (pyUrlparsePath (pyRstrip gitChars (pyRstrip ['/'] url.data)))) with
  | owner :: repo_name :: _ => .ok (String.mk owner, String.mk repo_name)
  | _ =>
    .error ("Invalid GitHub URL: " ++
      String.mk (pyRstrip gitChars (pyRstrip ['/'] url.data)))

/-- `EditInstruction` of `src/ai_editor.py`.  The free-form `context`
dictionary is modelled as an optional string association list. -/
structure EditInstruction where
  file_path : String
  change_type : String  -- "modify", "create", "delete", "rename"
  description : String
  context : Option (List (String × String)) := none
  priority : Int := 1   -- documented "1-5, higher is more important"
deriving DecidableEq

/-- `EditPlan` of `src/ai_editor.py`; the float confidence is kept as a
rational. -/
structure EditPlan where
  instructions : List EditInstruction
  dependencies : List String
  risks : List String
  estimated_time : String  -- "quick", "medium", "complex"
  confidence : ℚ
deriving DecidableEq

/-- Validation dictionary stored in a `FileChange`
(`{"valid": ..., "warnings": [...]}`). -/
structure ValidationResult where
  valid : Bool
  warnings : List String
deriving DecidableEq

/-- Review dictionary produced by `AIEditor.review_changes`
(issue list with severities). -/
structure ReviewResult where
  status : String
  issues : List (String × String)
deriving DecidableEq

/-- `FileChange` of `src/repository_manager.py`. -/
structure FileChange where
  file_path : String
  original_content : String
  new_content : String
  change_type : String  -- "modified", "created", "deleted"
  language : String
  validation_result : ValidationResult
  review_result : Option ReviewResult := none
  explanation : Option String := none
deriving DecidableEq

/-- The summary dictionary built at the end of
`RepositoryManager.execute_edits`; the wall-clock `timestamp` entry is
not modelled. -/
structure EditSummary where
  total_instructions : Nat
  successful_changes : Nat
  failed_changes : Nat
  warnings_count : Nat
  files_modified : Nat
  files_created : Nat
  files_deleted : Nat
deriving DecidableEq

/-- `EditResult` of `src/repository_manager.py`. -/
structure EditResult where
  success : Bool
  changes : List FileChange
  plan : EditPlan
  summary : EditSummary
  errors : List String
  warnings : List String
  branch_name : Option String := none
  pr_url : Option String := none
deriving DecidableEq

/-- The cloned working copy, as a map from repository-relative file paths
to contents. -/
def FS : Type := List (String × String)

/-- File-content lookup (`full_path.exists()` / `open(..., 'r')`). -/
def fsRead (fs : FS) (p : String) : Option String :=
  (List.lookup p fs : Option String)

/-- `open(full_path, 'w').write(content)`: overwrite or add. -/
def fsWrite (fs : FS) (p c : String) : FS :=
  (p, c) :: (fs : List (String × String)).filter (fun kv => decide (kv.1 ≠ p))

/-- `full_path.unlink()`. -/
def fsErase (fs : FS) (p : String) : FS :=
  (fs : List (String × String)).filter (fun kv => decide (kv.1 ≠ p))

/-- The AI content-generation collaborator (`AIEditor.edit_file`): a
network call that yields new file content or raises.  Arguments follow
the call sites: current content, file path, language, instruction
description, instruction context. -/
structure AIEditorOracle where
  edit_file : String → String → String → String →
    Option (List (String × String)) → Except String String

/-- Mutable local state threaded through
`RepositoryManager.execute_edits`: the working copy plus the `changes`,
`errors` and `warnings` accumulators. -/
structure ExecState where
  fs : FS
  changes : List FileChange
  errors : List String
  warnings : List String

/-- Error string built by the per-instruction `except` handler
(`f"Failed to process instruction for {path}: {e}"`). -/
def failMsg (p e : String) : String :=
  "Failed to process instruction for " ++ p ++ ": " ++ e

/-- `str(e)` for the `AttributeError` raised by the
`self.ai_editor.validate_edit(...)` call at
`src/repository_manager.py:270`: the class `AIEditor` defines no
`validate_edit` attribute anywhere in the sources, so the attribute
lookup itself raises.  (Python renders the two names in single quotes;
the quotes are left out here.) -/
def attrErrMsg : String :=
  "AIEditor object has no attribute validate_edit"

/-- One iteration of the instruction loop of
`RepositoryManager.execute_edits`.  The `modify` branch reaches the
`validate_edit` call right after content generation; since that method
does not exist, the call raises `AttributeError`, the per-instruction
handler records an error, and the validation / review / explanation /
persist code below the call (`src/repository_manager.py:270-306`) is
unreachable. -/
def execInstruction (ai : AIEditorOracle) (st : ExecState)
    (ins : EditInstruction) : ExecState :=
  if ins.change_type = "modify" then
    match fsRead st.fs ins.file_path with
    | none =>
      { st with warnings := st.warnings ++ ["File not found for modification: " ++ ins.file_path] }
    | some original_content =>
      match ai.edit_file original_content ins.file_path
          (detect_language ins.file_path (some original_content))
          ins.description ins.context with
      | .error e => { st with errors := st.errors ++ [failMsg ins.file_path e] }
      | .ok _new_content =>
        { st with errors := st.errors ++ [failMsg ins.file_path attrErrMsg] }
  else if ins.change_type = "create" then
    match ai.edit_file "" ins.file_path (detect_language ins.file_path none)
        ins.description ins.context with
    | .error e => { st with errors := st.errors ++ [failMsg ins.file_path e] }
    | .ok new_content =>
      { st with
        fs := fsWrite st.fs ins.file_path new_content,
        changes := st.changes ++
          [{ file_path := ins.file_path, original_content := "", new_content := new_content,
             change_type := "created",
             language := detect_language ins.file_path none,
             validation_result := { valid := true, warnings := [] } }] }
  else if ins.change_type = "delete" then
    match fsRead st.fs ins.file_path with
    | some original_content =>
      { st with
        fs := fsErase st.fs ins.file_path,
        changes := st.changes ++
          [{ file_path := ins.file_path, original_content := original_content, new_content := "",
             change_type := "deleted",
             language := detect_language ins.file_path (some original_content),
             validation_result := { valid := true, warnings := [] } }] }
    | none =>
      { st with warnings := st.warnings ++ ["File not found for deletion: " ++ ins.file_path] }
  else if ins.change_type = "rename" then
    { st with warnings := st.warnings ++ ["Rename operation not yet implemented: " ++ ins.file_path] }
  else st

/-- Priority order used by `sorted(plan.instructions, key=lambda x: x.priority)`. -/
def prioLE (a b : EditInstruction) : Prop := a.priority ≤ b.priority

instance : DecidableRel prioLE := fun a b =>
  (inferInstance : Decidable (a.priority ≤ b.priority))

instance : IsTotal EditInstruction prioLE := ⟨fun a b => Int.le_total a.priority b.priority⟩

instance : IsTrans EditInstruction prioLE := ⟨fun _ _ _ h h' => le_trans h h'⟩

/-- `sorted(plan.instructions, key=lambda x: x.priority)` — a stable sort
by ascending priority value. -/
def sortedInstructions (plan : EditPlan) : List EditInstruction :=
  plan.instructions.insertionSort prioLE

/-- Initial accumulator state of `execute_edits`. -/
def initState (fs : FS) : ExecState :=
  { fs := fs, changes := [], errors := [], warnings := [] }

/-- The summary dictionary and `EditResult` constructed after all
instructions were attempted. -/
def finalizeResult (plan : EditPlan) (st : ExecState) : EditResult :=
  { success := decide (0 < st.changes.length) && decide (st.errors.length = 0),
    changes := st.changes,
    plan := plan,
    summary :=
      { total_instructions := plan.instructions.length,
        successful_changes := st.changes.length,
        failed_changes := st.errors.length,
        warnings_count := st.warnings.length,
        files_modified := (st.changes.filter (fun c => decide (c.change_type = "modified"))).length,
        files_created := (st.changes.filter (fun c => decide (c.change_type = "created"))).length,
        files_deleted := (st.changes.filter (fun c => decide (c.change_type = "deleted"))).length },
    errors := st.errors,
    warnings := st.warnings }

/-- `RepositoryManager.execute_edits(context, plan, user_request)`: one
pass over the priority-sorted instructions; the user request is only
consumed by the (unreachable) explanation step. -/
def execute_edits (ai : AIEditorOracle) (fs : FS) (plan : EditPlan)
    (_user_request : String) : EditResult :=
  finalizeResult plan (List.foldl (execInstruction ai) (initState fs) (sortedInstructions plan))

/-- Final executor state (including the working copy), for stating
persistence properties. -/
def execFinalState (ai : AIEditorOracle) (fs : FS) (plan : EditPlan) : ExecState :=
  List.foldl (execInstruction ai) (initState fs) (sortedInstructions plan)

/-- `RepositoryContext` of `src/repository_manager.py`.  The fields that
only feed AI prompts (`repo_info`, `structure`, `important_files`,
`key_files_content`) are carried as plain data; `structure` is simplified
to a flat list of (path, language) annotations, which none of the
verified properties inspect. -/
structure RepositoryContext where
  repo_url : String
  owner : String
  repo_name : String
  local_path : Option String := none
  temp_dir : Option String := none
  file_structure : List (String × String) := []
  important_files : List String := []
  key_files_content : List (String × String) := []
  languages : List String := []
  file_count : Nat := 0
  default_branch : String := "main"
deriving DecidableEq

/-- `RepositoryManager.analyze_repository(repo_url)`.  The `hashlib.md5`
digest is a parameter `md5hex`; everything inside the `try` block (URL
parsing, metadata fetch, `Repo.clone_from`, structure scan, language
scan) is the builder parameter, whose failure re-raises.  Returns the
context (or error), the updated cache, and whether the builder ran. -/
def analyze_repository (md5hex : String → String)
    (builder : String → Except String RepositoryContext)
    (context_cache : List (String × RepositoryContext)) (repo_url : String) :
    Except String RepositoryContext × List (String × RepositoryContext) × Bool :=
  match List.lookup (md5hex repo_url) context_cache with
  | some ctx => (.ok ctx, context_cache, false)
  | none =>
    match builder repo_url with
    | .ok ctx => (.ok ctx, (md5hex repo_url, ctx) :: context_cache, true)
    | .error e => (.error e, context_cache, true)

/-- `RepositoryManager.cleanup(context)`.  The directory pool of the host
filesystem is a list of existing directory paths; `shutil.rmtree` is a
parameter returning the shrunken pool or `none` when it raises (that
failure is caught and only logged).  Python's `if context.temp_dir`
treats both `None` and `""` as falsy. -/
def cleanup (rmtree : String → List String → Option (List String))
    (dirs : List String) (ctx : RepositoryContext) : List String :=
  match ctx.temp_dir with
  | none => dirs
  | some d =>
    if d = "" then dirs
    else if d ∈ dirs then
      match rmtree d dirs with
      | some dirs' => dirs'
      | none => dirs
    else dirs

/-- The regex denylist of `RepositoryManager._validate_edit_plan`; each
pattern is a literal substring (the dot in `\.git/` is escaped). -/
def risky_patterns : List String :=
  [".git/", "/etc/", "/bin/", "/usr/", "/var/", "/sys/", "/proc/"]

/-- Source-code extensions whose deletion is flagged. -/
def important_extensions : List String :=
  [".py", ".js", ".ts", ".java", ".cpp", ".c", ".go", ".rs"]

/-- Warnings contributed by a single instruction in
`RepositoryManager._validate_edit_plan`: one "Risky file path" warning
per matching denylist pattern, then a "Deleting source code file"
warning for deletions of recognized source files. -/
def instructionWarnings (ins : EditInstruction) : List String :=
  (risky_patterns.filter (fun pat => strContains ins.file_path pat)).map
      (fun _ => "Risky file path: " ++ ins.file_path)
    ++
    (if ins.change_type = "delete"
        ∧ important_extensions.any (fun ext => ext.data.isSuffixOf ins.file_path.data)
     then ["Deleting source code file: " ++ ins.file_path] else [])

/-- `RepositoryManager._validate_edit_plan(plan, context)`: the list of
warnings it accumulates and logs.  It returns nothing, raises nothing,
and never blocks execution. -/
def validate_edit_plan (plan : EditPlan) : List String :=
  (if 20 < plan.instructions.length
   then ["Plan has " ++ toString plan.instructions.length ++ " instructions, which is a lot"]
   else [])
  ++ plan.instructions.flatMap instructionWarnings

/-- The validation step of `RepositoryManager.plan_edits`: the plan is
passed to `_validate_edit_plan` and then returned unchanged; the
warnings are only logged. -/
def plan_edits_validate (plan : EditPlan) : EditPlan × List String :=
  (plan, validate_edit_plan plan)

/-- Change kind recorded in a `FileChange` for each successfully executed
instruction kind ("modify" → "modified", "create" → "created",
"delete" → "deleted"; "rename" and unknown kinds never succeed). -/
def appliedKind (ct : String) : Option String :=
  if ct = "modify" then some "modified"
  else if ct = "create" then some "created"
  else if ct = "delete" then some "deleted"
  else none

/-- A `FileChange` corresponds to an instruction: same target path, and
the recorded change kind is the applied form of the instruction kind. -/
def changeMatches (c : FileChange) (ins : EditInstruction) : Prop :=
  c.file_path = ins.file_path ∧ appliedKind ins.change_type = some c.change_type

/-- Demonstration plan with instruction priorities [3, 1, 2]. -/
def demoPlan312 : EditPlan :=
  { instructions :=
      [{ file_path := "a", change_type := "modify", description := "da", priority := 3 },
       { file_path := "b", change_type := "create", description := "db", priority := 1 },
       { file_path := "c", change_type := "delete", description := "dc", priority := 2 }],
    dependencies := [], risks := [], estimated_time := "quick", confidence := 1 }

/-- Generation oracle that always returns syntactically valid Python. -/
def aiConstPy : AIEditorOracle :=
  { edit_file := fun _ _ _ _ _ => .ok "x = 1\n" }

/-- One-file working copy used for the concrete executor runs. -/
def fsOnePy : FS := [("a.py", "x = 0\n")]

/-- A plan holding a single `modify` instruction for the existing file. -/
def planModifyOne : EditPlan :=
  { instructions :=
      [{ file_path := "a.py", change_type := "modify", description := "set x to 1", priority := 1 }],
    dependencies := [], risks := [], estimated_time := "quick", confidence := 1 }

/-- A plan holding a single instruction that targets VCS metadata. -/
def planRisky : EditPlan :=
  { instructions :=
      [{ file_path := ".git/config", change_type := "modify", description := "edit hooks", priority := 1 }],
    dependencies := [], risks := [], estimated_time := "quick", confidence := 1 }

/-- Concrete repository context for the cache witness. -/
def demoCtx : RepositoryContext :=
  { repo_url := "https://github.com/o/r", owner := "o", repo_name := "r" }

/-- Builder that always produces `demoCtx`. -/
def demoBuilder : String → Except String RepositoryContext := fun _ => .ok demoCtx

/-- Context owning a temporary working-copy directory. -/
def demoCtxTemp : RepositoryContext :=
  { repo_url := "https://github.com/o/r", owner := "o", repo_name := "r",
    temp_dir := some "temp/repos/github_ai_x" }

/-- `shutil.rmtree` model that empties the pool (so the removed directory
is certainly gone afterwards). -/
def rmtreeAll : String → List String → Option (List String) := fun _ _ => some []

/-- Standard-library parser instantiation for the syntax-validation
witness, agreeing with CPython on the two probed inputs. -/
def demoParsers : LibParsers :=
  { pyParse := fun s =>
      if s = "def test():\n pass\n" then .ok
      else .syntaxError 1 11 "expected colon",
    jsonParse := fun _ => none,
    yamlAvailable := false,
    yamlParse := fun _ => none }

/-- Constant similarity oracle for the comparison witness. -/
def simZero : List String → List String → ℚ := fun _ _ => 0

/-! Helper lemmas. -/

/-- Distinct-line count of a filtered list equals the finite-set
difference cardinality. -/
lemma dedup_filter_length_eq_sdiff_card (u v : List String) :
    ((u.filter (fun l => decide (l ∉ v))).dedup).length =
      (u.toFinset \ v.toFinset).card := by
  have h1 : u.toFinset \ v.toFinset = (u.filter (fun l => decide (l ∉ v))).toFinset := by
    ext x
    simp [List.mem_filter]
  rw [h1, List.card_toFinset]

/-- Each executor step either appends exactly one matching `FileChange`
(touching neither accumulator), or leaves `changes` unchanged while
appending one error or one warning; doing nothing at all is possible
only for a change kind outside modify/create/delete/rename. -/
lemma execInstruction_cases (ai : AIEditorOracle) (st : ExecState) (ins : EditInstruction) :
    (∃ c, (execInstruction ai st ins).changes = st.changes ++ [c] ∧ changeMatches c ins ∧
        (execInstruction ai st ins).errors = st.errors ∧
        (execInstruction ai st ins).warnings = st.warnings) ∨
    ((execInstruction ai st ins).changes = st.changes ∧
      ((∃ e, (execInstruction ai st ins).errors = st.errors ++ [e] ∧
          (execInstruction ai st ins).warnings = st.warnings) ∨
       (∃ w, (execInstruction ai st ins).warnings = st.warnings ++ [w] ∧
          (execInstruction ai st ins).errors = st.errors) ∨
       (execInstruction ai st ins = st ∧
         ¬ins.change_type = "modify" ∧ ¬ins.change_type = "create" ∧
         ¬ins.change_type = "delete" ∧ ¬ins.change_type = "rename"))) := by
  unfold execInstruction
  split
  next hmod =>
    split
    · exact .inr ⟨rfl, .inr (.inl ⟨_, rfl, rfl⟩)⟩
    · split
      · exact .inr ⟨rfl, .inl ⟨_, rfl, rfl⟩⟩
      · exact .inr ⟨rfl, .inl ⟨_, rfl, rfl⟩⟩
  next hmod =>
    split
    next hcre =>
      split
      · exact .inr ⟨rfl, .inl ⟨_, rfl, rfl⟩⟩
      · exact .inl ⟨_, rfl, ⟨rfl, by simp [appliedKind, hcre]⟩, rfl, rfl⟩
    next hcre =>
      split
      next hdel =>
        split
        · exact .inl ⟨_, rfl, ⟨rfl, by simp [appliedKind, hdel]⟩, rfl, rfl⟩
        · exact .inr ⟨rfl, .inr (.inl ⟨_, rfl, rfl⟩)⟩
      next hdel =>
        split
        next hren => exact .inr ⟨rfl, .inr (.inl ⟨_, rfl, rfl⟩)⟩
        next hren => exact .inr ⟨rfl, .inr (.inr ⟨rfl, hmod, hcre, hdel, hren⟩)⟩

/-- The raising path of a `modify` instruction: when the target file
exists, the step reaches the missing `validate_edit` attribute (or the
generation call itself raises), so it appends exactly one error, appends
no warning, and produces no FileChange. -/
lemma execInstruction_modify_raises (ai : AIEditorOracle) (st : ExecState)
    (ins : EditInstruction) (orig : String)
    (hmod : ins.change_type = "modify")
    (hread : fsRead st.fs ins.file_path = some orig) :
    (execInstruction ai st ins).changes = st.changes ∧
    (execInstruction ai st ins).warnings = st.warnings ∧
    ∃ e, (execInstruction ai st ins).errors = st.errors ++ [e] := by
  unfold execInstruction
  rw [if_pos hmod]
  simp only [hread]
  cases he : ai.edit_file orig ins.file_path
      (detect_language ins.file_path (some orig)) ins.description ins.context with
  | error e =>
    refine ⟨?_, ?_, failMsg ins.file_path e, ?_⟩ <;> simp [he]
  | ok nc =>
    refine ⟨?_, ?_, failMsg ins.file_path attrErrMsg, ?_⟩ <;> simp [he]

/-- The raising path of a `create` instruction: when the generation call
raises, the step records exactly the handler's error string, appends no
warning, and produces no FileChange. -/
lemma execInstruction_create_raises (ai : AIEditorOracle) (st : ExecState)
    (ins : EditInstruction) (e0 : String)
    (hcre : ins.change_type = "create")
    (hgen : ai.edit_file "" ins.file_path (detect_language ins.file_path none)
      ins.description ins.context = .error e0) :
    (execInstruction ai st ins).changes = st.changes ∧
    (execInstruction ai st ins).warnings = st.warnings ∧
    (execInstruction ai st ins).errors = st.errors ++ [failMsg ins.file_path e0] := by
  have hmod : ¬(ins.change_type = "modify") := by
    rw [hcre]
    decide
  unfold execInstruction
  rw [if_neg hmod, if_pos hcre, hgen]
  exact ⟨rfl, rfl, rfl⟩

/-- Folding the executor over any instruction list: the produced changes
correspond, in order, to a sublist of the attempted instructions. -/
lemma execFold_changes (ai : AIEditorOracle) :
    ∀ (l : List EditInstruction) (st : ExecState),
      ∃ (sub : List EditInstruction) (tail : List FileChange),
        sub.Sublist l ∧
        (List.foldl (execInstruction ai) st l).changes = st.changes ++ tail ∧
        List.Forall₂ changeMatches tail sub
  | [], st => ⟨[], [], List.Sublist.refl _, by simp, List.Forall₂.nil⟩
  | i :: rest, st => by
    rcases execInstruction_cases ai st i with ⟨c, hc, hm, _, _⟩ | ⟨hc, _⟩
    · obtain ⟨sub, tail, hsub, hch, hf⟩ := execFold_changes ai rest (execInstruction ai st i)
      refine ⟨i :: sub, c :: tail, hsub.cons₂ i, ?_, List.Forall₂.cons hm hf⟩
      simp only [List.foldl_cons]
      rw [hch, hc]
      simp
    · obtain ⟨sub, tail, hsub, hch, hf⟩ := execFold_changes ai rest (execInstruction ai st i)
      refine ⟨sub, tail, hsub.cons i, ?_, hf⟩
      simp only [List.foldl_cons]
      rw [hch, hc]

/-- `charSplit` never returns the empty list of pieces. -/
lemma charSplit_ne_nil (sep : Char) (l : List Char) : charSplit sep l ≠ [] := by
  cases l with
  | nil => simp [charSplit]
  | cons c t =>
    unfold charSplit
    cases charSplit sep t with
    | nil => simp
    | cons h r =>
      by_cases hc : c = sep <;> simp [hc]

/-- Splitting a list that starts with the separator opens with an empty
piece. -/
lemma charSplit_sep_cons (sep : Char) (v : List Char) :
    charSplit sep (sep :: v) = [] :: charSplit sep v := by
  cases hsp : charSplit sep v with
  | nil => exact absurd hsp (charSplit_ne_nil sep v)
  | cons h r =>
    simp only [charSplit]
    rw [hsp]
    simp

/-- Splitting a separator-free list yields that list as the only piece. -/
lemma charSplit_no_sep (sep : Char) (u : List Char) (hu : sep ∉ u) :
    charSplit sep u = [u] := by
  induction u with
  | nil => rfl
  | cons c t ih =>
    have hc : ¬(c = sep) := fun h => hu (h ▸ List.mem_cons_self c t)
    have ht : sep ∉ t := fun h => hu (List.mem_cons_of_mem c h)
    unfold charSplit
    rw [ih ht]
    simp [hc]

/-- A separator-free prefix merges into the first piece of the split of
the remainder. -/
lemma charSplit_append (sep : Char) (u : List Char) (hu : sep ∉ u) :
    ∀ (w h : List Char) (r : List (List Char)),
      charSplit sep w = h :: r → charSplit sep (u ++ w) = (u ++ h) :: r := by
  induction u with
  | nil => intro w h r hw; simpa using hw
  | cons c t ih =>
    intro w h r hw
    have hc : ¬(c = sep) := fun h0 => hu (h0 ▸ List.mem_cons_self c t)
    have ht : sep ∉ t := fun h0 => hu (List.mem_cons_of_mem c h0)
    rw [List.cons_append]
    unfold charSplit
    rw [ih ht w h r hw]
    simp [hc]

/-- Members of a right-stripped list are members of the original. -/
lemma mem_pyRstrip {c : Char} {cs l : List Char} (h : c ∈ pyRstrip cs l) : c ∈ l := by
  unfold pyRstrip at h
  rw [List.mem_reverse] at h
  exact List.mem_reverse.mp ((List.dropWhile_sublist _).subset h)

/-- `str.rstrip(chars)` is the identity when the final character (if any)
is outside the stripped set. -/
lemma pyRstrip_noop (cs l : List Char)
    (h : ∀ c, l.getLast? = some c → c ∉ cs) : pyRstrip cs l = l := by
  cases hrev : l.reverse with
  | nil =>
    have hl : l = [] := by simpa using congrArg List.reverse hrev
    subst hl
    rfl
  | cons a t =>
    have ha : l.getLast? = some a := by
      rw [← List.head?_reverse, hrev]
      rfl
    have hmem : a ∉ cs := h a ha
    unfold pyRstrip
    rw [hrev, List.dropWhile_cons, if_neg (by simpa using hmem)]
    rw [← hrev, List.reverse_reverse]

/-- `str.rstrip(chars)` leaves the string unchanged exactly when it does
not end in one of the stripped characters. -/
lemma pyRstrip_eq_self_iff (cs l : List Char) :
    pyRstrip cs l = l ↔ (∀ c, l.getLast? = some c → c ∉ cs) := by
  constructor
  · intro he c hlast hmem
    cases hrev : l.reverse with
    | nil =>
      rw [← List.head?_reverse, hrev] at hlast
      simp at hlast
    | cons a t =>
      have hac : a = c := by
        rw [← List.head?_reverse, hrev] at hlast
        simpa using hlast
      subst hac
      unfold pyRstrip at he
      rw [hrev, List.dropWhile_cons, if_pos (by simpa using hmem)] at he
      have hlen := congrArg List.length he
      have hle : (List.dropWhile (fun c => cs.contains c) t).length ≤ t.length :=
        (List.dropWhile_sublist _).length_le
      have hll : l.length = t.length + 1 := by
        have := congrArg List.length hrev
        simpa using this
      simp only [List.length_reverse] at hlen
      omega
  · exact pyRstrip_noop cs l

/-- `str.rstrip(chars)` acts only on the second part of a concatenation
when that part does not strip to nothing. -/
lemma pyRstrip_append (cs u v : List Char) (hv : pyRstrip cs v ≠ []) :
    pyRstrip cs (u ++ v) = u ++ pyRstrip cs v := by
  have hne : v.reverse.dropWhile (fun c => cs.contains c) ≠ [] := by
    intro h0
    apply hv
    unfold pyRstrip
    rw [h0]
    rfl
  unfold pyRstrip
  rw [List.reverse_append, List.dropWhile_append,
    if_neg (by simpa [List.isEmpty_iff] using hne)]
  rw [List.reverse_append, List.reverse_reverse]

/-- The scheme separator of the fixed prefix is found after `https`. -/
lemma afterSchemeSep_github (r : List Char) :
    afterSchemeSep ("https://github.com/".data ++ r) = some ("github.com/".data ++ r) := rfl

/-- The URL path of a string with the GitHub host prefix. -/
lemma pyUrlparsePath_github (r : List Char) :
    pyUrlparsePath ("https://github.com/".data ++ r) = '/' :: r := rfl

/-- C1: the claim says a `modify` instruction on an existing file runs
syntax validation on the generated content and persists it when valid.
The code cannot do this: `execute_edits` calls
`self.ai_editor.validate_edit(...)`, an attribute `AIEditor` never
defines, so every `modify` instruction raises `AttributeError` after
content generation; the handler records an error, nothing is persisted
and no FileChange is produced.  This theorem evaluates the executor at
the claimed scenario (one `modify` instruction, existing target,
generation returning valid Python). -/
theorem c1_modify_never_validates_nor_persists :
    (execute_edits aiConstPy fsOnePy planModifyOne "add one").changes = [] ∧
    (execute_edits aiConstPy fsOnePy planModifyOne "add one").errors =
      [failMsg "a.py" attrErrMsg] ∧
    (execute_edits aiConstPy fsOnePy planModifyOne "add one").success = false ∧
    (execFinalState aiConstPy fsOnePy planModifyOne).fs = fsOnePy := by
  refine ⟨rfl, rfl, rfl, rfl⟩

/-- C2: the Executor attempts instructions in ascending order of their
integer priority value: `execute_edits` folds over
`sortedInstructions plan`, which is pairwise ascending in priority and a
permutation of the plan; a plan with priorities [3, 1, 2] is attempted
in the order 1, 2, 3. -/
theorem c2_executor_ascending_priority :
    (∀ (ai : AIEditorOracle) (fs : FS) (plan : EditPlan) (req : String),
        execute_edits ai fs plan req =
          finalizeResult plan
            (List.foldl (execInstruction ai) (initState fs) (sortedInstructions plan))) ∧
    (∀ plan : EditPlan,
        (sortedInstructions plan).Pairwise (fun a b => a.priority ≤ b.priority)) ∧
    (∀ plan : EditPlan, (sortedInstructions plan).Perm plan.instructions) ∧
    (sortedInstructions demoPlan312).map (fun i => i.priority) = [1, 2, 3] := by
  refine ⟨fun _ _ _ _ => rfl, fun plan => ?_,
    fun plan => List.perm_insertionSort prioLE plan.instructions, by decide⟩
  exact List.sorted_insertionSort prioLE plan.instructions

/-- C3: the returned EditResult's success flag is true iff at least one
FileChange was produced and no errors were recorded. -/
theorem c3_success_iff_changes_and_no_errors (ai : AIEditorOracle) (fs : FS)
    (plan : EditPlan) (req : String) :
    (execute_edits ai fs plan req).success = true ↔
      ((execute_edits ai fs plan req).changes ≠ [] ∧
        (execute_edits ai fs plan req).errors = []) := by
  simp [execute_edits, finalizeResult, List.length_pos, List.length_eq_zero]

/-- C4: every FileChange in an EditResult corresponds, in order and
one-to-one, to an instruction of the plan whose change kind was
successfully applied (a sublist of the attempted sequence); each
attempted instruction either contributes exactly one matching FileChange
(touching neither errors nor warnings) or contributes no FileChange and
appends an error entry or a warning entry — doing nothing is possible
only for a change kind outside modify/create/delete/rename; and the
instructions that raise (every generated-content `modify`, since
`validate_edit` is missing, and every `create` whose generation call
raises) specifically produce no FileChange, no warning, and exactly one
error entry. -/
theorem c4_filechange_instruction_correspondence :
    (∀ (ai : AIEditorOracle) (fs : FS) (plan : EditPlan) (req : String),
      ∃ sub : List EditInstruction,
        sub.Sublist (sortedInstructions plan) ∧
        (∀ i ∈ sub, i ∈ plan.instructions) ∧
        List.Forall₂ changeMatches (execute_edits ai fs plan req).changes sub) ∧
    (∀ (ai : AIEditorOracle) (st : ExecState) (ins : EditInstruction),
      (∃ c, (execInstruction ai st ins).changes = st.changes ++ [c] ∧ changeMatches c ins ∧
          (execInstruction ai st ins).errors = st.errors ∧
          (execInstruction ai st ins).warnings = st.warnings) ∨
      ((execInstruction ai st ins).changes = st.changes ∧
        ((∃ e, (execInstruction ai st ins).errors = st.errors ++ [e] ∧
            (execInstruction ai st ins).warnings = st.warnings) ∨
         (∃ w, (execInstruction ai st ins).warnings = st.warnings ++ [w] ∧
            (execInstruction ai st ins).errors = st.errors) ∨
         (execInstruction ai st ins = st ∧
           ¬ins.change_type = "modify" ∧ ¬ins.change_type = "create" ∧
           ¬ins.change_type = "delete" ∧ ¬ins.change_type = "rename")))) ∧
    (∀ (ai : AIEditorOracle) (st : ExecState) (ins : EditInstruction) (orig : String),
      ins.change_type = "modify" → fsRead st.fs ins.file_path = some orig →
        (execInstruction ai st ins).changes = st.changes ∧
        (execInstruction ai st ins).warnings = st.warnings ∧
        ∃ e, (execInstruction ai st ins).errors = st.errors ++ [e]) ∧
    (∀ (ai : AIEditorOracle) (st : ExecState) (ins : EditInstruction) (e0 : String),
      ins.change_type = "create" →
      ai.edit_file "" ins.file_path (detect_language ins.file_path none)
          ins.description ins.context = .error e0 →
        (execInstruction ai st ins).changes = st.changes ∧
        (execInstruction ai st ins).warnings = st.warnings ∧
        (execInstruction ai st ins).errors = st.errors ++ [failMsg ins.file_path e0]) := by
  refine ⟨?_, execInstruction_cases,
    fun ai st ins orig hmod hread => execInstruction_modify_raises ai st ins orig hmod hread,
    fun ai st ins e0 hcre hgen => execInstruction_create_raises ai st ins e0 hcre hgen⟩
  intro ai fs plan req
  obtain ⟨sub, tail, hsub, hch, hf⟩ :=
    execFold_changes ai (sortedInstructions plan) (initState fs)
  refine ⟨sub, hsub, ?_, ?_⟩
  · intro i hi
    exact (List.perm_insertionSort prioLE plan.instructions).mem_iff.mp (hsub.subset hi)
  · have hc : (execute_edits ai fs plan req).changes = tail := by
      have h1 : (execute_edits ai fs plan req).changes =
          (List.foldl (execInstruction ai) (initState fs) (sortedInstructions plan)).changes := rfl
      rw [h1, hch]
      rfl
    rw [hc]
    exact hf

/-- C4 instantiation: the batch correspondence at a concrete plan, and
the modify-raise clause at a concrete state, with its hypotheses
discharged by evaluation. -/
theorem c4_filechange_instruction_correspondence_witness :
    (∃ sub : List EditInstruction,
      sub.Sublist (sortedInstructions demoPlan312) ∧
      (∀ i ∈ sub, i ∈ demoPlan312.instructions) ∧
      List.Forall₂ changeMatches
        (execute_edits aiConstPy fsOnePy demoPlan312 "r").changes sub) ∧
    ((execInstruction aiConstPy (initState fsOnePy)
        { file_path := "a.py", change_type := "modify", description := "set x to 1",
          context := none, priority := 1 }).changes = (initState fsOnePy).changes ∧
      (execInstruction aiConstPy (initState fsOnePy)
        { file_path := "a.py", change_type := "modify", description := "set x to 1",
          context := none, priority := 1 }).warnings = (initState fsOnePy).warnings ∧
      ∃ e, (execInstruction aiConstPy (initState fsOnePy)
        { file_path := "a.py", change_type := "modify", description := "set x to 1",
          context := none, priority := 1 }).errors = (initState fsOnePy).errors ++ [e]) :=
  ⟨c4_filechange_instruction_correspondence.1 aiConstPy fsOnePy demoPlan312 "r",
   c4_filechange_instruction_correspondence.2.2.1 aiConstPy (initState fsOnePy)
     { file_path := "a.py", change_type := "modify", description := "set x to 1",
       context := none, priority := 1 } "x = 0\n" rfl rfl⟩

/-- C5: a second `analyze` call with the same URL and untouched cache is
a hit keyed by the URL digest: it returns the stored context and does
not invoke the builder (no clone, no re-characterization). -/
theorem c5_analyze_cache_hit (md5hex : String → String)
    (builder : String → Except String RepositoryContext)
    (cache cache' : List (String × RepositoryContext)) (url : String)
    (ctx : RepositoryContext) (b : Bool)
    (h : analyze_repository md5hex builder cache url = (.ok ctx, cache', b)) :
    analyze_repository md5hex builder cache' url = (.ok ctx, cache', false) := by
  unfold analyze_repository at h ⊢
  cases hl : List.lookup (md5hex url) cache with
  | some c =>
    rw [hl] at h
    simp only [Prod.mk.injEq, Except.ok.injEq] at h
    obtain ⟨h1, h2, -⟩ := h
    subst h1
    subst h2
    rw [hl]
  | none =>
    rw [hl] at h
    cases hb : builder url with
    | ok c =>
      rw [hb] at h
      simp only [Prod.mk.injEq, Except.ok.injEq] at h
      obtain ⟨h1, h2, -⟩ := h
      subst h1
      rw [← h2]
      simp [List.lookup]
    | error e =>
      rw [hb] at h
      simp at h

/-- C5 instantiation: the second lookup of a cached URL is a hit. -/
theorem c5_analyze_cache_hit_witness :
    analyze_repository id demoBuilder
        [("https://github.com/o/r", demoCtx)] "https://github.com/o/r" =
      (.ok demoCtx, [("https://github.com/o/r", demoCtx)], false) :=
  c5_analyze_cache_hit id demoBuilder [] [("https://github.com/o/r", demoCtx)]
    "https://github.com/o/r" demoCtx true rfl

/-- C6: syntax validation of Python content reports valid when the
parser accepts, and on the missing-colon probe reports invalid with a
message carrying the parser's line number 1; every language without an
available checker reports valid with no error.  The CPython parser is a
parameter; the two hypotheses state its documented behaviour on the
probed inputs. -/
theorem c6_validateSyntax_contract (P : LibParsers) :
    (P.pyParse "def test():\n pass\n" = .ok →
      validateSyntax P "def test():\n pass\n" "python" = (true, none)) ∧
    (∀ off msg, P.pyParse "def test()\n pass\n" = .syntaxError 1 off msg →
      validateSyntax P "def test()\n pass\n" "python" =
        (false, some ("Syntax error at line 1: " ++ msg))) ∧
    (∀ (content lang : String), lang ≠ "python" → lang ≠ "json" → lang ≠ "yaml" →
      validateSyntax P content lang = (true, none)) := by
  refine ⟨?_, ?_, ?_⟩
  · intro h
    simp [validateSyntax, validatePythonSyntax, h]
  · intro off msg h
    simp only [validateSyntax, validatePythonSyntax, h]
    rfl
  · intro content lang h1 h2 h3
    simp [validateSyntax, h1, h2, h3]

/-- C6 instantiation with a concrete parser agreeing with CPython on the
two probed inputs. -/
theorem c6_validateSyntax_witness :
    validateSyntax demoParsers "def test():\n pass\n" "python" = (true, none) ∧
    validateSyntax demoParsers "def test()\n pass\n" "python" =
      (false, some ("Syntax error at line 1: " ++ "expected colon")) ∧
    validateSyntax demoParsers "let x = 1" "rust" = (true, none) :=
  ⟨(c6_validateSyntax_contract demoParsers).1 rfl,
   (c6_validateSyntax_contract demoParsers).2.1 11 "expected colon" rfl,
   (c6_validateSyntax_contract demoParsers).2.2 "let x = 1" "rust"
     (by decide) (by decide) (by decide)⟩

/-- C7: comparing a string with itself yields changed=false,
similarity=1, additions=0, deletions=0; for differing inputs additions
and deletions are the cardinalities of the line-set differences (new
minus old, old minus new); the changed classification is symmetric. -/
theorem c7_compare_files_properties (simFn : List String → List String → ℚ)
    (x a b : String) :
    (compare_files simFn x x =
      { changed := false, additions := 0, deletions := 0, similarity := 1,
        added_lines := none, removed_lines := none }) ∧
    (a ≠ b →
      (compare_files simFn a b).additions =
        (((charSplit '\n' b.data).map String.mk).toFinset \
          ((charSplit '\n' a.data).map String.mk).toFinset).card ∧
      (compare_files simFn a b).deletions =
        (((charSplit '\n' a.data).map String.mk).toFinset \
          ((charSplit '\n' b.data).map String.mk).toFinset).card) ∧
    ((compare_files simFn a b).changed = (compare_files simFn b a).changed) := by
  refine ⟨by simp [compare_files], ?_, ?_⟩
  · intro hab
    unfold compare_files
    rw [if_neg hab]
    exact ⟨dedup_filter_length_eq_sdiff_card _ _, dedup_filter_length_eq_sdiff_card _ _⟩
  · by_cases hab : a = b
    · subst hab
      rfl
    · unfold compare_files
      rw [if_neg hab, if_neg (fun h => hab h.symm)]

/-- C7 instantiation on a concrete pair of two-line strings. -/
theorem c7_compare_files_witness :
    (compare_files simZero "p\nq" "p\nr").additions =
      (((charSplit '\n' ("p\nr").data).map String.mk).toFinset \
        ((charSplit '\n' ("p\nq").data).map String.mk).toFinset).card :=
  ((c7_compare_files_properties simZero "w" "p\nq" "p\nr").2.1 (by decide)).1

/-- C8: the plan Validator flags every instruction whose path contains a
denylisted fragment (VCS metadata directory or OS path root) with a
"Risky file path" warning, and hands the plan on unchanged — it only
produces warnings and cannot block execution. -/
theorem c8_validator_flags_risky (plan : EditPlan) (ins : EditInstruction) (pat : String)
    (hins : ins ∈ plan.instructions) (hpat : pat ∈ risky_patterns)
    (hmatch : strContains ins.file_path pat = true) :
    ("Risky file path: " ++ ins.file_path) ∈ (plan_edits_validate plan).2 ∧
      (plan_edits_validate plan).1 = plan := by
  refine ⟨?_, rfl⟩
  unfold plan_edits_validate validate_edit_plan
  apply List.mem_append_right
  rw [List.mem_flatMap]
  refine ⟨ins, hins, ?_⟩
  unfold instructionWarnings
  apply List.mem_append_left
  rw [List.mem_map]
  exact ⟨pat, List.mem_filter.mpr ⟨hpat, hmatch⟩, rfl⟩

/-- C8 instantiation: a `.git/` path is flagged. -/
theorem c8_validator_witness :
    ("Risky file path: .git/config") ∈ (plan_edits_validate planRisky).2 :=
  (c8_validator_flags_risky planRisky
      { file_path := ".git/config", change_type := "modify",
        description := "edit hooks", priority := 1 }
      ".git/" (by decide) (by decide) (by decide)).1

/-- C10: cleanup is a no-op when the context has no temp directory or the
directory is absent, failures of the remover are swallowed, and (for a
remover that really removes) running cleanup twice equals running it
once. -/
theorem c10_cleanup_noop_and_idempotent
    (rmtree : String → List String → Option (List String))
    (dirs : List String) (ctx : RepositoryContext) :
    (ctx.temp_dir = none → cleanup rmtree dirs ctx = dirs) ∧
    (∀ d, ctx.temp_dir = some d → d ∉ dirs → cleanup rmtree dirs ctx = dirs) ∧
    ((∀ d ds ds', rmtree d ds = some ds' → d ∉ ds') →
      cleanup rmtree (cleanup rmtree dirs ctx) ctx = cleanup rmtree dirs ctx) := by
  refine ⟨?_, ?_, ?_⟩
  · intro h
    unfold cleanup
    rw [h]
  · intro d hd hnot
    unfold cleanup
    rw [hd]
    by_cases he : d = ""
    · simp [he]
    · simp [he, hnot]
  · intro hrm
    unfold cleanup
    cases hd : ctx.temp_dir with
    | none => rfl
    | some d =>
      by_cases he : d = ""
      · simp [he]
      · simp only [he, if_false]
        by_cases hm : d ∈ dirs
        · simp only [if_pos hm]
          cases hr : rmtree d dirs with
          | some ds' =>
            have hnot : d ∉ ds' := hrm d dirs ds' hr
            simp [hnot]
          | none => simp [hm, hr]
        · simp [hm]

/-- C10 instantiation: double cleanup of a held temp directory equals a
single cleanup. -/
theorem c10_cleanup_witness :
    cleanup rmtreeAll (cleanup rmtreeAll ["temp/repos/github_ai_x"] demoCtxTemp) demoCtxTemp =
      cleanup rmtreeAll ["temp/repos/github_ai_x"] demoCtxTemp :=
  (c10_cleanup_noop_and_idempotent rmtreeAll ["temp/repos/github_ai_x"] demoCtxTemp).2.2
    (fun d ds ds' h => by
      simp only [rmtreeAll, Option.some.injEq] at h
      rw [← h]
      exact List.not_mem_nil d)

/-- C9 counterexample: the claim promises that every URL of the shape
`https://github.com/` + owner + `/` + name parses to the owner and the
rstripped name, but when the name consists entirely of characters from
the stripped set the strip consumes it whole and the parse fails with a
ValueError instead (here name = "git"). -/
theorem c9_counterexample_name_git :
    parse_repo_url "https://github.com/o/git" =
      .error "Invalid GitHub URL: https://github.com/o/" := rfl

/-- C9 (amended): for owner and name without path or query separators,
and provided the rstrip of the name is nonempty, parsing returns the
owner together with the name stripped of its trailing run of characters
from the rstrip set; and a name is unchanged by the strip exactly when
it does not end in one of `.`, `g`, `i`, `t`.  (The `?` and `#`
hypotheses confine the statement to URLs on which the urlparse model
agrees with CPython.) -/
theorem c9_parse_repo_url_rstrip (owner nm : String)
    (h₁ : owner ≠ "") (h₂ : '/' ∉ owner.data)
    (h₃ : '?' ∉ owner.data) (h₄ : '#' ∉ owner.data)
    (h₅ : '/' ∉ nm.data) (h₆ : '?' ∉ nm.data) (h₇ : '#' ∉ nm.data)
    (h₈ : pyRstrip gitChars nm.data ≠ []) :
    parse_repo_url ("https://github.com/" ++ owner ++ "/" ++ nm) =
      .ok (owner, String.mk (pyRstrip gitChars nm.data)) ∧
    (∀ s : String, String.mk (pyRstrip gitChars s.data) = s ↔
      ∀ c, s.data.getLast? = some c → c ∉ gitChars) := by
  constructor
  · have hnm : nm.data ≠ [] := by
      intro h0
      apply h₈
      rw [h0]
      rfl
    have hdata : ("https://github.com/" ++ owner ++ "/" ++ nm).data
        = ("https://github.com/".data ++ owner.data ++ ['/']) ++ nm.data := by
      simp only [String.data_append]
    have hcl : nm.data.getLast? = some (nm.data.getLast hnm) :=
      List.getLast?_eq_getLast nm.data hnm
    have hclmem : nm.data.getLast hnm ∈ nm.data := List.getLast_mem hnm
    have hclslash : ¬(nm.data.getLast hnm = '/') := fun h0 => h₅ (h0 ▸ hclmem)
    have hs1 : pyRstrip ['/'] ("https://github.com/" ++ owner ++ "/" ++ nm).data
        = ("https://github.com/" ++ owner ++ "/" ++ nm).data := by
      apply pyRstrip_noop
      intro c hc
      rw [hdata, List.getLast?_append, hcl] at hc
      have hgc : nm.data.getLast hnm = c := by simpa using hc
      have hcm2 : c ∈ nm.data := hgc ▸ hclmem
      have hcs : ¬(c = '/') := fun h0 => h₅ (h0 ▸ hcm2)
      simp [hcs]
    have hs2 : pyRstrip gitChars ("https://github.com/" ++ owner ++ "/" ++ nm).data
        = ("https://github.com/".data ++ owner.data ++ ['/']) ++ pyRstrip gitChars nm.data := by
      rw [hdata]
      exact pyRstrip_append gitChars _ _ h₈
    have hassoc : ("https://github.com/".data ++ owner.data ++ ['/']) ++ pyRstrip gitChars nm.data
        = "https://github.com/".data ++ (owner.data ++ '/' :: pyRstrip gitChars nm.data) := by
      simp [List.append_assoc]
    have hnr : pyRstrip gitChars nm.data ≠ [] := h₈
    have hnod : '/' ∉ pyRstrip gitChars nm.data := fun h0 => h₅ (mem_pyRstrip h0)
    have hod : owner.data ≠ [] := by
      intro h0
      apply h₁
      cases owner with
      | mk d =>
        simp only at h0
        rw [h0]
    have hlastmid : ('/' :: pyRstrip gitChars nm.data).getLast? =
        some ((pyRstrip gitChars nm.data).getLast hnr) := by
      rw [show ('/' :: pyRstrip gitChars nm.data) = ['/'] ++ pyRstrip gitChars nm.data from rfl,
        List.getLast?_append, List.getLast?_eq_getLast _ hnr]
      rfl
    have hstrip : pyStrip ['/'] ('/' :: (owner.data ++ '/' :: pyRstrip gitChars nm.data))
        = owner.data ++ '/' :: pyRstrip gitChars nm.data := by
      unfold pyStrip pyLstrip
      rw [List.dropWhile_cons, if_pos (by simp)]
      cases howd : owner.data with
      | nil => exact absurd howd hod
      | cons o os =>
        have ho : o ∈ owner.data := by
          rw [howd]
          exact List.mem_cons_self o os
        have hos : ¬(o = '/') := fun h0 => h₂ (h0 ▸ ho)
        rw [List.cons_append, List.dropWhile_cons, if_neg (by simpa using hos)]
        rw [← List.cons_append, ← howd]
        apply pyRstrip_noop
        intro c hc
        rw [List.getLast?_append, hlastmid] at hc
        have hgc : (pyRstrip gitChars nm.data).getLast hnr = c := by simpa using hc
        have hcm : c ∈ pyRstrip gitChars nm.data := hgc ▸ List.getLast_mem hnr
        have hcs : ¬(c = '/') := fun h0 => hnod (h0 ▸ hcm)
        simp [hcs]
    have hsplit : charSplit '/' (owner.data ++ '/' :: pyRstrip gitChars nm.data)
        = [owner.data, pyRstrip gitChars nm.data] := by
      have h0 : charSplit '/' ('/' :: pyRstrip gitChars nm.data)
          = [] :: charSplit '/' (pyRstrip gitChars nm.data) :=
        charSplit_sep_cons '/' (pyRstrip gitChars nm.data)
      rw [charSplit_no_sep '/' (pyRstrip gitChars nm.data) hnod] at h0
      have h1 := charSplit_append '/' owner.data h₂
        ('/' :: pyRstrip gitChars nm.data) [] [pyRstrip gitChars nm.data] h0
      simpa using h1
    unfold parse_repo_url
    rw [hs1, hs2, hassoc, pyUrlparsePath_github, hstrip, hsplit]
  · intro s
    constructor
    · intro he c hlast
      have h0 : pyRstrip gitChars s.data = s.data := congrArg String.data he
      exact (pyRstrip_eq_self_iff gitChars s.data).mp h0 c hlast
    · intro h
      have h0 : pyRstrip gitChars s.data = s.data :=
        (pyRstrip_eq_self_iff gitChars s.data).mpr h
      rw [h0]

/-- C9 instantiation: a name ending in strip-set characters loses its
trailing run. -/
theorem c9_parse_repo_url_witness :
    parse_repo_url "https://github.com/alice/spaghetti" = .ok ("alice", "spaghe") := by
  have h := (c9_parse_repo_url_rstrip "alice" "spaghetti" (by decide) (by decide) (by decide)
      (by decide) (by decide) (by decide) (by decide) (by decide)).1
  exact h
